import Mathlib

/-!
Verification of the frizbee reference-resolution and line-rewriting engine.

The Go sources are shallowly embedded: pure string manipulation is translated
to Lean functions over `String` (operating on the underlying `List Char`),
external effects (GitHub REST calls, container-registry lookups, the
third-party reference and Dockerfile parsers) are passed in as oracle
functions, and every function that issues such a call additionally returns
the list of requests it made, so that "no network call happens" is a
provable statement.  Fallible Go code returning `(T, error)` becomes
`Except GoErr T`, where `GoErr` distinguishes errors wrapping the
`ErrReferenceSkipped` sentinel (recognised via `errors.Is`) from hard errors.
-/

namespace Frizbee

/-! ## Go `strings` package primitives (byte-level semantics on ASCII inputs) -/

/-- `strings.HasPrefix` on the underlying character lists. -/
def listHasPref : List Char → List Char → Bool
  | [], _ => true
  | _ :: _, [] => false
  | p :: ps, x :: xs => p == x && listHasPref ps xs

/-- Go `strings.HasPrefix s p`. -/
def strHasPref (s p : String) : Bool :=
  listHasPref p.data s.data

/-- Go `strings.TrimPrefix s p`: drops `p` when it is a prefix, else returns `s`. -/
def strTrimPref (s p : String) : String :=
  if strHasPref s p then ⟨s.data.drop p.data.length⟩ else s

/-- Go `strings.Split s sep` for a single-character separator `c`. -/
def splitOnChar (c : Char) : List Char → List (List Char)
  | [] => [[]]
  | x :: xs =>
    match splitOnChar c xs with
    | [] => [[]]
    | y :: ys => if x == c then [] :: y :: ys else (x :: y) :: ys

/-- Go `strings.Split s sep` (single-character separator), on strings. -/
def strSplitChar (s : String) (c : Char) : List String :=
  (splitOnChar c s.data).map fun l => ⟨l⟩

/-- Substring containment on character lists (Go `strings.Contains`). -/
def listContains (sub : List Char) : List Char → Bool
  | [] => listHasPref sub []
  | x :: xs => listHasPref sub (x :: xs) || listContains sub xs

/-- Go `strings.Contains s sub`. -/
def strContains (s sub : String) : Bool :=
  listContains sub.data s.data

/-- Membership of a character in a cutset. -/
def inCutset (cut : List Char) (c : Char) : Bool :=
  cut.contains c

/-- Go `strings.TrimLeft s cutset`. -/
def strTrimLeft (s : String) (cut : List Char) : String :=
  ⟨s.data.dropWhile (inCutset cut)⟩

/-- ASCII whitespace, as recognised by Go `unicode.IsSpace` on the inputs at hand. -/
def goSpace : List Char := [' ', '\t', '\n', '\r', '\x0b', '\x0c']

/-- Go `strings.TrimSpace` (restricted to ASCII whitespace). -/
def trimSpace (s : String) : String :=
  ⟨((s.data.dropWhile (inCutset goSpace)).reverse.dropWhile (inCutset goSpace)).reverse⟩

/-- UTF-8 byte width of one character, as in Go's string representation. -/
def charSize (c : Char) : Nat :=
  if c.toNat < 0x80 then 1
  else if c.toNat < 0x800 then 2
  else if c.toNat < 0x10000 then 3
  else 4

/-- Go `len(s)`: the UTF-8 byte length of the string. -/
def goStrLen (s : String) : Nat :=
  (s.data.map charSize).sum

/-- `strings.Join parts " "` as used for Dockerfile flag lists. -/
def joinSpace : List String → String
  | [] => ""
  | [x] => x
  | x :: xs => x ++ " " ++ joinSpace xs

/-! ## Errors (`pkg/interfaces` sentinel plus `fmt.Errorf` wrapping)

Go code wraps errors with `fmt.Errorf("...: %w", err)`; `errors.Is` still
recognises the `ErrReferenceSkipped` sentinel through any number of wraps.
We therefore carry the "wraps the skip sentinel" bit in the constructor. -/

/-- A Go error value: either one wrapping `interfaces.ErrReferenceSkipped`,
or a hard error.  The message is kept for faithfulness of construction. -/
inductive GoErr where
  | skipped (msg : String)
  | hard (msg : String)
  deriving DecidableEq, Repr

/-- `errors.Is err ErrReferenceSkipped`. -/
def GoErr.isSkip : GoErr → Bool
  | .skipped _ => true
  | .hard _ => false

/-- `fmt.Errorf("<pre>%w", err)`-style wrapping: prepends context, preserves
whether the skip sentinel is wrapped. -/
def wrapGo (pre : String) : GoErr → GoErr
  | .skipped m => .skipped (pre ++ m)
  | .hard m => .hard (pre ++ m)

/-- Whether an `Except GoErr` result is a reference-skipped outcome. -/
def isSkipRes {α : Type} : Except GoErr α → Bool
  | .error e => e.isSkip
  | .ok _ => false

/-- Whether an `Except` result is a success. -/
def isOkRes {α : Type} : Except GoErr α → Bool
  | .ok _ => true
  | .error _ => false

/-! ## Data model (`pkg/interfaces.EntityRef`, `pkg/utils/config`) -/

/-- `interfaces.EntityRef`: Name, Ref, Type, Tag, Prefix. The Go field
`Type` is rendered `rtype` and `Prefix` is rendered `pfx` (both are Lean
keywords). -/
structure EntityRef where
  name : String
  ref : String
  rtype : String
  tag : String
  pfx : String
  deriving DecidableEq, Repr

/-- `config.GHActions` / `config.Filter`: exclusion lists for actions.
The `ExcludeBranches` field of `Filter` is read by `GetChecksum` via
`cfg.Filter.ExcludeBranches`; the struct literal lives with the callers. -/
structure GHActions where
  exclude : List String
  excludeBranches : List String
  deriving DecidableEq, Repr

/-- `config.ImageFilter`: exclusion lists for container images. -/
structure ImageFilter where
  excludeImages : List String
  excludeTags : List String
  deriving DecidableEq, Repr

/-- `config.Config` as consumed by the parsers. -/
structure Config where
  platform : String
  ghActions : GHActions
  images : ImageFilter
  deriving DecidableEq, Repr

/-- `config.defaultConfig()`: built-in exclusion of the `scratch`
pseudo-image and the `latest` tag. -/
def defaultConfig : Config :=
  { platform := ""
    ghActions := { exclude := [], excludeBranches := [] }
    images := { excludeImages := ["scratch"], excludeTags := ["latest"] } }

/-! ## Reference cache (`internal/store`)

`unsafeCacher` is backed by a plain Go map; we embed it as an association
list with in-place update, which is the sequential semantics of Go map
assignment and lookup. -/

/-- The backing state of a cacher. -/
abbrev Cache := List (String × String)

/-- Go map assignment `m[k] = v`: overwrite the binding if present,
otherwise add it. -/
def mapStore : Cache → String → String → Cache
  | [], k, v => [(k, v)]
  | (k', v') :: rest, k, v =>
    if k' == k then (k, v) :: rest else (k', v') :: mapStore rest k v

/-- Go map lookup `v, ok := m[k]`: `some v` iff the key is bound. -/
def mapLoad : Cache → String → Option String
  | [], _ => none
  | (k', v') :: rest, k => if k' == k then some v' else mapLoad rest k

/-- `unsafeCacher.Store`. -/
def plainStore (c : Cache) (k v : String) : Cache := mapStore c k v

/-- `unsafeCacher.Load`. -/
def plainLoad (c : Cache) (k : String) : Option String := mapLoad c k

/-- Modelled from the spec: the concurrency-safe `refCacher` delegates to
`xsync.MapOf`, a dependency whose source is not part of this repository;
per the spec its sequential semantics is a key-value map ("last `Store`
wins; `Load` on an absent key returns not-found").  We model its state as
a journal of stores, newest first. -/
def safeStore (c : Cache) (k v : String) : Cache := (k, v) :: c

/-- Modelled from the spec: `refCacher.Load` on the journal state returns
the most recent binding of the key. -/
def safeLoad : Cache → String → Option String
  | [], _ => none
  | (k', v') :: rest, k => if k' == k then some v' else safeLoad rest k

/-- One cache operation of a sequential run (`Load` is read-only, so a
run's state is determined by its stores). -/
inductive CacheOp where
  | store (k v : String)

/-- Replay a chronological sequence of stores against `unsafeCacher`. -/
def plainRun (ops : List CacheOp) : Cache :=
  ops.foldl (fun c op => match op with | .store k v => plainStore c k v) []

/-- Replay a chronological sequence of stores against `refCacher`. -/
def safeRun (ops : List CacheOp) : Cache :=
  ops.foldl (fun c op => match op with | .store k v => safeStore c k v) []

/-- The specification read: the value of the last `store` to the key in
the sequence, if any. -/
def lastStore : List CacheOp → String → Option String
  | [], _ => none
  | .store k v :: rest, q =>
    match lastStore rest q with
    | some w => some w
    | none => if k == q then some v else none

/-! ## REST transport oracle (`internal/ghrest` as seen through
`doGetReference`)

`doGetReference` issues one GET and distinguishes: a 404 (not found, not an
error), a decoded reference object `{object: {sha, type}}`, a transport
failure, a decode failure whose message shows the payload was an array
(treated as "this is a branch, not a tag"), and any other decode failure. -/

/-- Possible outcomes of one REST GET as classified by `doGetReference`. -/
inductive RestResp where
  | notFound
  | found (sha otype : String)
  | httpErr (msg : String)
  | decodeArray
  | decodeErr (msg : String)
  deriving DecidableEq, Repr

/-- The REST service: a response for every path. -/
def RestOracle := String → RestResp

/-- `url.JoinPath("repos", owner, repo, "git", "refs", "tags", tag)`. -/
def tagRefPath (owner repo tag : String) : String :=
  "repos/" ++ owner ++ "/" ++ repo ++ "/git/refs/tags/" ++ tag

/-- `url.JoinPath("repos", owner, repo, "git", "tags", sha)`. -/
def tagObjPath (owner repo sha : String) : String :=
  "repos/" ++ owner ++ "/" ++ repo ++ "/git/tags/" ++ sha

/-- `url.JoinPath("repos", owner, repo, "git", "refs", "heads", branch)`. -/
def branchRefPath (owner repo branch : String) : String :=
  "repos/" ++ owner ++ "/" ++ repo ++ "/git/refs/heads/" ++ branch

/-- `doGetReference`: one GET against `path`; returns `(sha, objectType)`
(empty strings when not found / array-shaped) or an error, together with
the list of REST requests issued. -/
def doGetReference (rest : RestOracle) (path : String) :
    Except GoErr (String × String) × List String :=
  (match rest path with
   | .notFound => .ok ("", "")
   | .found sha otype => .ok (sha, otype)
   | .httpErr m => .error (.hard ("failed to do API request: " ++ m))
   | .decodeArray => .ok ("", "")
   | .decodeErr m => .error (.hard ("canont decode response: " ++ m)),
   [path])

/-! ## Actions checksum resolver (`pkg/replacer/actions`) -/

/-- `isChecksum`: Go `len(ref) == 40` (byte length). -/
def isChecksum (ref : String) : Bool :=
  goStrLen ref == 40

/-- `excludeBranch`: empty list excludes nothing; a `"*"` entry excludes
every branch; otherwise exact membership. -/
def excludeBranch (excludes : List String) (branch : String) : Bool :=
  if excludes.isEmpty then false
  else if excludes.contains "*" then true
  else excludes.contains branch

/-- `getCheckSumForTag`: request the tag's git ref; a `commit` object's SHA
is the answer; otherwise (annotated tag) dereference the tag object with
one more request. -/
def getCheckSumForTag (rest : RestOracle) (owner repo tag : String) :
    Except GoErr String × List String :=
  let path := tagRefPath owner repo tag
  match doGetReference rest path with
  | (.error e, log) => (.error e, log)
  | (.ok (sha, otype), log) =>
    if otype == "commit" then (.ok sha, log)
    else
      match doGetReference rest (tagObjPath owner repo sha) with
      | (.error e, log2) => (.error e, log ++ log2)
      | (.ok (sha2, _), log2) => (.ok sha2, log ++ log2)

/-- `getCheckSumForBranch`: request the branch head's git ref. -/
def getCheckSumForBranch (rest : RestOracle) (owner repo branch : String) :
    Except GoErr String × List String :=
  match doGetReference rest (branchRefPath owner repo branch) with
  | (.error e, log) => (.error e, log)
  | (.ok (sha, _), log) => (.ok sha, log)

/-- `parseActionFragments`: split on `/`; fewer than two segments is an
invalid action; the first two segments are owner and repo. -/
def parseActionFragments (action : String) : Except GoErr (String × String) :=
  match strSplitChar action '/' with
  | o :: r :: _ => .ok (o, r)
  | _ => .error (.hard ("invalid action: '" ++ action ++ "' reference is incorrect"))

/-- `GetChecksum`: checksum short-circuit, then tag lookup, then
branch-exclusion policy, then branch lookup, else "not a tag nor branch".
Also returns the list of REST requests issued. -/
def GetChecksum (cfg : GHActions) (rest : RestOracle) (action ref : String) :
    Except GoErr String × List String :=
  match parseActionFragments action with
  | .error e => (.error e, [])
  | .ok (owner, repo) =>
    if isChecksum ref then (.ok ref, [])
    else
      match getCheckSumForTag rest owner repo ref with
      | (.error e, log) => (.error (wrapGo "failed to get checksum for tag: " e), log)
      | (.ok res, log) =>
        if res != "" then (.ok res, log)
        else if excludeBranch cfg.excludeBranches ref then
          (.error (.skipped ("reference skipped: " ++ ref)), log)
        else
          match getCheckSumForBranch rest owner repo ref with
          | (.error e, log2) =>
            (.error (wrapGo "failed to get checksum for branch: " e), log ++ log2)
          | (.ok res2, log2) =>
            if res2 != "" then (.ok res2, log ++ log2)
            else (.error (.hard "action reference is not a tag nor branch"), log ++ log2)

/-! ## Image digest resolver and parser (`pkg/replacer/image`)

The third-party pieces — `name.ParseReference`, `remote.Get`, and the
buildkit Dockerfile parser behind `getRefFromDockerfileFROM` — are external
to this repository and are supplied as oracles. -/

/-- The observable part of a parsed `name.Reference`: `Context().Name()`
and `Identifier()`. -/
structure NameRef where
  name : String
  identifier : String
  deriving DecidableEq, Repr

/-- `unresolvedImage`: result of splitting a Dockerfile `FROM` line. -/
structure UnresolvedImage where
  imageRef : String
  flags : List String
  deriving DecidableEq, Repr

/-- External-library oracles of the image module. -/
structure ImageExt where
  /-- `name.ParseReference`: `none` on parse failure. -/
  parseRef : String → Option NameRef
  /-- `remote.Get(...).Digest.String()` for the parsed reference. -/
  remoteGet : String → Except String String
  /-- `getRefFromDockerfileFROM`: buildkit parse of a `FROM` line into the
  image reference and the instruction flags. -/
  dockerFrom : String → Except String UnresolvedImage

/-- Result of an image-side operation: the outcome, the cache afterwards,
and the registry lookups performed. -/
structure ImgOut where
  res : Except GoErr EntityRef
  cache : Option Cache
  reqs : List String
  deriving Repr

/-- The digest-fetch block of `GetImageDigestFromRef`: serve from the cache
when enabled and populated, otherwise perform the registry lookup and store
the result. -/
def digestViaCache (ext : ImageExt) (imageRef : String) (cache : Option Cache) :
    Except GoErr String × Option Cache × List String :=
  match cache with
  | some c =>
    match mapLoad c imageRef with
    | some d => (.ok d, some c, [])
    | none =>
      match ext.remoteGet imageRef with
      | .error m => (.error (.hard m), some c, [imageRef])
      | .ok d => (.ok d, some (mapStore c imageRef d), [imageRef])
  | none =>
    match ext.remoteGet imageRef with
    | .error m => (.error (.hard m), none, [imageRef])
    | .ok d => (.ok d, none, [imageRef])

/-- `GetImageDigestFromRef`: parse, validate the platform constraint, fetch
the digest (through the cache when enabled), and skip when the reference is
already expressed by that digest. -/
def GetImageDigestFromRef (ext : ImageExt) (imageRef platform : String)
    (cache : Option Cache) : ImgOut :=
  match ext.parseRef imageRef with
  | none => { res := .error (.hard ("could not parse reference: " ++ imageRef))
              cache := cache, reqs := [] }
  | some nref =>
    if platform != "" && (strSplitChar platform '/').length != 2 then
      { res := .error (.hard "platform must be in the format os/arch")
        cache := cache, reqs := [] }
    else
      match digestViaCache ext imageRef cache with
      | (.error e, c2, log) => { res := .error e, cache := c2, reqs := log }
      | (.ok digest, c2, log) =>
        if digest == nref.identifier then
          { res := .error (.skipped ("image already referenced by digest: " ++
                     imageRef ++ " " ++ "reference skipped"))
            cache := c2, reqs := log }
        else
          { res := .ok { name := nref.name, ref := digest, rtype := "container"
                         tag := nref.identifier, pfx := "" }
            cache := c2, reqs := log }

/-- `getImageNameFromRef`: last `/`-segment of the full repository name,
or `""` when there is a single segment. -/
def getImageNameFromRef (nref : NameRef) : String :=
  let parts := strSplitChar nref.name '/'
  if parts.length > 1 then parts.getLastD "" else ""

/-- `shouldSkipImageRef`: an unparseable reference is skipped; otherwise
check the image-name and tag exclusion lists. -/
def shouldSkipImageRef (ext : ImageExt) (cfg : Config) (ref : String) : Bool :=
  match ext.parseRef ref with
  | none => true
  | some nref =>
    if cfg.images.excludeImages.contains (getImageNameFromRef nref) then true
    else cfg.images.excludeTags.contains nref.identifier

/-- The `extraArgs` computation of the Dockerfile `FROM` branch: joined
instruction flags, followed by a space when non-empty. -/
def dockerExtraArgs (flags : List String) : String :=
  let extraArgs := joinSpace flags
  if extraArgs != "" then extraArgs ++ " " else extraArgs

/-- `image.Parser.Replace`: strip/record the `FROM ` or `image: ` prefix,
apply the exclusion policy, resolve the digest and reattach the prefix
(including Dockerfile flags). -/
def imageReplace (ext : ImageExt) (cfg : Config) (cache : Option Cache)
    (matchedLine : String) : ImgOut :=
  if strHasPref matchedLine "FROM " then
    match ext.dockerFrom matchedLine with
    | .error m => { res := .error (.hard m), cache := cache, reqs := [] }
    | .ok parsedFrom =>
      if shouldSkipImageRef ext cfg parsedFrom.imageRef then
        { res := .error (.skipped ("image reference " ++ matchedLine ++
                   " should be excluded - " ++ "reference skipped"))
          cache := cache, reqs := [] }
      else
        let extraArgs := dockerExtraArgs parsedFrom.flags
        let out := GetImageDigestFromRef ext parsedFrom.imageRef cfg.platform cache
        match out.res with
        | .error e => { out with res := .error e }
        | .ok r => { out with res := .ok { r with pfx := "FROM " ++ extraArgs ++ r.pfx } }
  else if strHasPref matchedLine "image: " then
    let imageRef := strTrimPref matchedLine "image: "
    if shouldSkipImageRef ext cfg imageRef then
      { res := .error (.skipped ("image reference " ++ matchedLine ++
                 " should be excluded - " ++ "reference skipped"))
        cache := cache, reqs := [] }
    else
      let out := GetImageDigestFromRef ext imageRef cfg.platform cache
      match out.res with
      | .error e => { out with res := .error e }
      | .ok r => { out with res := .ok { r with pfx := "image: " ++ r.pfx } }
  else
    GetImageDigestFromRef ext matchedLine cfg.platform cache

/-! ## Actions parser (`pkg/replacer/actions`) -/

/-- `isLocal`: local relative paths are never resolved. -/
def isLocal (input : String) : Bool :=
  strHasPref input "./" || strHasPref input "../"

/-- `shouldExclude`: exact membership in the actions exclude list. -/
def shouldExclude (cfg : GHActions) (input : String) : Bool :=
  cfg.exclude.contains input

/-- The single-quote character, code point 39. -/
def quoteSingle : Char := Char.ofNat 39

/-- The double-quote character, code point 34. -/
def quoteDouble : Char := Char.ofNat 34

/-- `stripQuotes` on the character list: trim space, then peel one pair of
matching single or double quotes. -/
def stripQuotesList (l : List Char) : List Char :=
  match l with
  | c :: d :: rest =>
    let lastc := (d :: rest).getLast (by simp)
    if (c == quoteSingle && lastc == quoteSingle)
        || (c == quoteDouble && lastc == quoteDouble) then
      (d :: rest).dropLast
    else c :: d :: rest
  | _ => l

/-- `stripQuotes`: removes surrounding quotes after trimming whitespace. -/
def stripQuotes (input : String) : String :=
  ⟨stripQuotesList (trimSpace input).data⟩

/-- `ParseActionReference`: strip quotes, split on `@`; exactly two
fragments are required. -/
def ParseActionReference (input : String) : Except GoErr (String × String) :=
  let inp := stripQuotes input
  match strSplitChar inp '@' with
  | [a, r] => .ok (a, r)
  | _ => .error (.hard ("invalid action reference: " ++ inp))

/-- Result of an actions-side `Replace`: the outcome, the parser cache
afterwards, and the REST/registry lookups performed. -/
structure ActOut where
  res : Except GoErr EntityRef
  cache : Option Cache
  reqs : List String
  deriving Repr

/-- The cache-consultation block of `replaceAction`: serve the checksum
from the cache when enabled and populated, otherwise call `GetChecksum`
(wrapping its error) and store the result. -/
def checksumViaCache (cfg : Config) (cache : Option Cache) (rest : RestOracle)
    (matchedLine act ref : String) : Except GoErr String × Option Cache × List String :=
  match cache with
  | some c =>
    match mapLoad c matchedLine with
    | some v => (.ok v, some c, [])
    | none =>
      match GetChecksum cfg.ghActions rest act ref with
      | (.error e, log) =>
        (.error (wrapGo ("failed to get checksum for action '" ++
           matchedLine ++ "': ") e), some c, log)
      | (.ok sum, log) => (.ok sum, some (mapStore c matchedLine sum), log)
  | none =>
    match GetChecksum cfg.ghActions rest act ref with
    | (.error e, log) =>
      (.error (wrapGo ("failed to get checksum for action '" ++
         matchedLine ++ "': ") e), none, log)
    | (.ok sum, log) => (.ok sum, none, log)

/-- `replaceAction`: exclusion and local-path policy, reference parsing,
cache consultation, checksum resolution, and the already-pinned skip. -/
def replaceAction (cfg : Config) (cache : Option Cache) (rest : RestOracle)
    (matchedLine : String) : ActOut :=
  if isLocal matchedLine || shouldExclude cfg.ghActions matchedLine then
    { res := .error (.skipped ("reference skipped: " ++ matchedLine))
      cache := cache, reqs := [] }
  else
    match ParseActionReference matchedLine with
    | .error e =>
      { res := .error (wrapGo ("failed to parse action reference '" ++
                 matchedLine ++ "': ") e)
        cache := cache, reqs := [] }
    | .ok (act, ref) =>
      if shouldExclude cfg.ghActions act then
        { res := .error (.skipped ("reference skipped: " ++ matchedLine))
          cache := cache, reqs := [] }
      else
        match checksumViaCache cfg cache rest matchedLine act ref with
        | (.error e, c2, log) => { res := .error e, cache := c2, reqs := log }
        | (.ok sum, c2, log) =>
          if ref == sum then
            { res := .error (.skipped ("image already referenced by digest: " ++
                       matchedLine ++ " " ++ "reference skipped"))
              cache := c2, reqs := log }
          else
            { res := .ok { name := act, ref := sum, rtype := "action"
                           tag := ref, pfx := "" }
              cache := c2, reqs := log }

/-- `replaceDocker`: the `docker://` sub-case delegates to the image digest
resolver and reattaches the `docker://` prefix. -/
def replaceDocker (ext : ImageExt) (cfg : Config) (cache : Option Cache)
    (matchedLine : String) : ActOut :=
  let trimmedRef := strTrimPref matchedLine "docker://"
  if isLocal trimmedRef || shouldExclude cfg.ghActions trimmedRef then
    { res := .error (.skipped ("reference skipped: " ++ matchedLine))
      cache := cache, reqs := [] }
  else
    let out := GetImageDigestFromRef ext trimmedRef cfg.platform cache
    match out.res with
    | .error e => { res := .error e, cache := out.cache, reqs := out.reqs }
    | .ok actionRef =>
      if shouldExclude cfg.ghActions actionRef.name then
        { res := .error (.skipped ("reference skipped: " ++ matchedLine))
          cache := out.cache, reqs := out.reqs }
      else
        let r := if strHasPref matchedLine "docker://" then
                   { actionRef with pfx := "docker://" ++ actionRef.pfx }
                 else actionRef
        { res := .ok r, cache := out.cache, reqs := out.reqs }

/-- The `uses: ` prefix handling at the top of `actions.Parser.Replace`:
the text the inner replace functions receive. -/
def usesTrimmed (matchedLine0 : String) : String :=
  if strHasPref matchedLine0 "uses: " then strTrimPref matchedLine0 "uses: "
  else matchedLine0

/-- `actions.Parser.Replace`: trim/record the `uses: ` prefix, dispatch on
the `docker://` sub-form, and reattach the prefix on success. -/
def actionsReplace (ext : ImageExt) (cfg : Config) (cache : Option Cache)
    (rest : RestOracle) (matchedLine0 : String) : ActOut :=
  let hasUses := strHasPref matchedLine0 "uses: "
  let matchedLine := usesTrimmed matchedLine0
  let out := if strHasPref matchedLine "docker://" then
               replaceDocker ext cfg cache matchedLine
             else
               replaceAction cfg cache rest matchedLine
  match out.res with
  | .error _ => out
  | .ok r =>
    { out with res := .ok (if hasUses then { r with pfx := "uses: " ++ r.pfx } else r) }

/-- `actions.Parser.ConvertToEntityRef`: pure parse of a matched reference
into Name/Ref/Type, used by the Lister. -/
def convertToEntityRefA (reference0 : String) : Except GoErr EntityRef :=
  let r1 := strTrimPref reference0 "uses: "
  let r2 := stripQuotes r1
  if strContains r2 "docker://" then
    let r3 := strTrimPref r2 "docker://"
    let sep := if !(strContains r3 "@") && strContains r3 ":" then ':' else '@'
    match strSplitChar r3 sep with
    | [a, b] => .ok { name := a, ref := b, rtype := "container", tag := "", pfx := "" }
    | _ => .error (.hard ("invalid action reference: " ++ r3))
  else
    match strSplitChar r2 '@' with
    | [a, b] => .ok { name := a, ref := b, rtype := "action", tag := "", pfx := "" }
    | _ => .error (.hard ("invalid action reference: " ++ r2))

/-- `ParseSingleGitHubAction` (standalone single-reference operation): a
`Replace` error — skip or hard — propagates to the caller; on success the
resolved `Ref` is returned. -/
def ParseSingleGitHubAction (ext : ImageExt) (cfg : Config) (cache : Option Cache)
    (rest : RestOracle) (entityRef : String) : Except GoErr String :=
  match (actionsReplace ext cfg cache rest entityRef).res with
  | .error e => .error e
  | .ok ret => .ok ret.ref

/-! ## Line-rewrite driver and lister (`pkg/replacer`, current iteration:
the free functions `parseAndReplaceReferencesInFile` / `listReferencesInFile`
taking the parser as an argument, with the commented-line skip)

The Go regex engine is external: for each input line the oracle input is the
decomposition that `ReplaceAllStringFunc` / `FindAllString` induce — the line
cut into unmatched text segments and matched substrings, in order. -/

/-- One segment of a line as decomposed by the matching regex. -/
inductive Seg where
  | txt (s : String)
  | matched (s : String)
  deriving DecidableEq, Repr

/-- A line together with its regex decomposition. -/
structure LineD where
  line : String
  segs : List Seg
  deriving Repr

/-- The commented-line test:
`strings.HasPrefix(strings.TrimLeft(line, " \t\n\r"), "#")`. -/
def isCommentLine (line : String) : Bool :=
  strHasPref (strTrimLeft line [' ', '\t', '\n', '\r']) "#"

/-- The `ReplaceAllStringFunc` callback: resolve the match; on any error
return the original match; otherwise reconstruct the line, with the
Dockerfile format chosen whenever the matched text contains `FROM`. -/
def rewriteMatch (resolve : String → Except GoErr EntityRef) (m : String) : String :=
  match resolve m with
  | .error _ => m
  | .ok ret =>
    if strContains m "FROM" then
      ret.pfx ++ ret.name ++ ":" ++ ret.tag ++ "@" ++ ret.ref
    else
      ret.pfx ++ ret.name ++ "@" ++ ret.ref ++ " # " ++ ret.tag

/-- `regexp.ReplaceAllStringFunc` on a decomposed line. -/
def replaceAllFunc (f : String → String) (segs : List Seg) : String :=
  match segs with
  | [] => ""
  | .txt s :: rest => s ++ replaceAllFunc f rest
  | .matched m :: rest => f m ++ replaceAllFunc f rest

/-- `regexp.FindAllString` on a decomposed line: the matches, in order. -/
def matchesOf : List Seg → List String
  | [] => []
  | .txt _ :: rest => matchesOf rest
  | .matched m :: rest => m :: matchesOf rest

/-- One iteration of the driver's scan loop: a commented line passes
through with no match processed; otherwise every match is resolved and
rewritten.  Returns the output line and the matches handed to `Replace`. -/
def processLine (resolve : String → Except GoErr EntityRef) (ld : LineD) :
    String × List String :=
  if isCommentLine ld.line then (ld.line, [])
  else (replaceAllFunc (rewriteMatch resolve) ld.segs, matchesOf ld.segs)

/-- The driver's whole-file loop: per-line rewriting, the `modified` flag
set whenever an output line differs, lines re-joined with `\n`. -/
def processFileCore (resolve : String → Except GoErr EntityRef) :
    List LineD → Bool × String × List String
  | [] => (false, "", [])
  | ld :: rest =>
    let nl := processLine resolve ld
    let r := processFileCore resolve rest
    ((nl.1 != ld.line) || r.1, nl.1 ++ "\n" ++ r.2.1, nl.2 ++ r.2.2)

/-- `parseAndReplaceReferencesInFile`: the Go function's `error` result can
only arise from regex compilation or the reader, both of which the
oracle-decomposed input has already discharged; a `Replace` error is
absorbed inside the callback and never surfaces here.  The extra component
lists every match handed to the parser's `Replace`. -/
def parseAndReplaceReferencesInFile (resolve : String → Except GoErr EntityRef)
    (file : List LineD) : Except GoErr (Bool × String) × List String :=
  let r := processFileCore resolve file
  (.ok (r.1, r.2.1), r.2.2)

/-- `mapset.Set.Add`: adds the record only when absent. -/
def setAdd (s : List EntityRef) (e : EntityRef) : List EntityRef :=
  if s.contains e then s else s ++ [e]

/-- One line of `listReferencesInFile`: commented lines are skipped; each
match is converted with the pure `ConvertToEntityRef`, conversion errors
are dropped, results are accumulated into the set. -/
def listLineRefs (convert : String → Except GoErr EntityRef)
    (found : List EntityRef) (ld : LineD) : List EntityRef :=
  if isCommentLine ld.line then found
  else
    (matchesOf ld.segs).foldl
      (fun acc m => match convert m with
        | .error _ => acc
        | .ok e => setAdd acc e) found

/-- `listReferencesInFile`: the per-file de-duplicated collection. -/
def listReferencesInFile (convert : String → Except GoErr EntityRef)
    (file : List LineD) : List EntityRef :=
  file.foldl (listLineRefs convert) []

/-- The name ordering used by the final `sort.Slice` call. -/
def entityLe (a b : EntityRef) : Prop := a.name ≤ b.name

instance : DecidableRel entityLe :=
  fun a b => inferInstanceAs (Decidable (a.name ≤ b.name))

instance : IsTotal EntityRef entityLe :=
  ⟨fun a b => le_total a.name b.name⟩

instance : IsTrans EntityRef entityLe :=
  ⟨fun _ _ _ h1 h2 => le_trans h1 h2⟩

/-- The final sort of the collected entities, ascending by `Name`. -/
def sortEntities (l : List EntityRef) : List EntityRef :=
  List.insertionSort entityLe l

/-- `ListInFile`: list, de-duplicate and name-sort one file's references,
with no resolver and no transport anywhere in the computation. -/
def listInFile (convert : String → Except GoErr EntityRef)
    (file : List LineD) : List EntityRef :=
  sortEntities (listReferencesInFile convert file)

/-! # Theorems -/

deriving instance DecidableEq for Except

/-! ## Cache lemmas (claim C9) -/

/-- First-some choice on options, the shape of `lastStore`'s recursion. -/
def orOpt (a b : Option String) : Option String :=
  match a with
  | some w => some w
  | none => b

theorem mapLoad_mapStore (c : Cache) (k v q : String) :
    mapLoad (mapStore c k v) q = if k == q then some v else mapLoad c q := by
  induction c with
  | nil => rfl
  | cons hd tl ih =>
    obtain ⟨k', v'⟩ := hd
    by_cases h : k' = k
    · subst h
      by_cases h2 : k' = q
      · subst h2; simp [mapStore, mapLoad]
      · simp [mapStore, mapLoad, h2]
    · by_cases h2 : k' = q
      · subst h2
        have hkq : ¬ k = k' := fun e => h e.symm
        simp [mapStore, mapLoad, h, hkq]
      · simp [mapStore, mapLoad, h, h2, ih]

theorem plain_fold_load (ops : List CacheOp) (c : Cache) (q : String) :
    mapLoad (ops.foldl (fun c op => match op with | .store k v => plainStore c k v) c) q
      = orOpt (lastStore ops q) (mapLoad c q) := by
  induction ops generalizing c with
  | nil => rfl
  | cons op rest ih =>
    obtain ⟨k, v⟩ := op
    rw [List.foldl_cons, ih]
    show orOpt (lastStore rest q) (mapLoad (mapStore c k v) q) = _
    rw [mapLoad_mapStore]
    cases hl : lastStore rest q with
    | some w => simp [orOpt, lastStore, hl]
    | none =>
      by_cases hk : k = q
      · simp [orOpt, lastStore, hl, hk]
      · simp [orOpt, lastStore, hl, hk]

theorem safe_fold_load (ops : List CacheOp) (c : Cache) (q : String) :
    safeLoad (ops.foldl (fun c op => match op with | .store k v => safeStore c k v) c) q
      = orOpt (lastStore ops q) (safeLoad c q) := by
  induction ops generalizing c with
  | nil => rfl
  | cons op rest ih =>
    obtain ⟨k, v⟩ := op
    rw [List.foldl_cons, ih]
    show orOpt (lastStore rest q) (safeLoad (safeStore c k v) q) = _
    cases hl : lastStore rest q with
    | some w => simp [orOpt, lastStore, hl]
    | none =>
      by_cases hk : k = q
      · simp [orOpt, lastStore, hl, hk, safeStore, safeLoad]
      · simp [orOpt, lastStore, hl, hk, safeStore, safeLoad]

/-- Whether no operation of the sequence ever stored to the key. -/
def neverStored : List CacheOp → String → Bool
  | [], _ => true
  | .store k2 _ :: rest, k => (k2 != k) && neverStored rest k

theorem lastStore_none_iff (ops : List CacheOp) (k : String) :
    lastStore ops k = none ↔ neverStored ops k = true := by
  induction ops with
  | nil => simp [lastStore, neverStored]
  | cons op rest ih =>
    obtain ⟨k2, v⟩ := op
    cases hl : lastStore rest k with
    | some w =>
      have hns : neverStored rest k ≠ true := fun hns => by simp [ih.mpr hns] at hl
      simp [lastStore, hl, neverStored]
      intro _
      simpa using hns
    | none =>
      by_cases hk : k2 = k
      · simp [lastStore, hl, hk, neverStored]
      · simp [lastStore, hl, hk, neverStored, ih.mp hl]

/-- C9: the concurrency-safe cache (`refCacher`, whose `xsync.MapOf`
dependency is modelled from the spec as a key-value map) and the non-safe
cache (`unsafeCacher`, a Go map) have identical sequential semantics:
after any sequence of `Store` operations, both `Load` the value of the
last `Store` to the key, and a key never stored is not found (the `Load`
signature has no error channel at all). -/
theorem cacher_sequential_semantics_equivalent (ops : List CacheOp) (k : String) :
    plainLoad (plainRun ops) k = lastStore ops k
    ∧ safeLoad (safeRun ops) k = lastStore ops k
    ∧ (lastStore ops k = none ↔ neverStored ops k = true) := by
  refine ⟨?_, ?_, lastStore_none_iff ops k⟩
  · show mapLoad (ops.foldl (fun c op => match op with | .store k v => plainStore c k v) []) k
        = lastStore ops k
    rw [plain_fold_load ops [] k]
    cases lastStore ops k <;> rfl
  · show safeLoad (ops.foldl (fun c op => match op with | .store k v => safeStore c k v) []) k
        = lastStore ops k
    rw [safe_fold_load ops [] k]
    cases lastStore ops k <;> rfl

/-! ## Tag resolution and branch exclusion (claims C6, C5) -/

/-- C6: resolving a ref as a tag requests the tag's underlying git object;
a `commit` object's SHA is returned directly with no further lookup, and
for any other object type (annotated tag) exactly one additional lookup
dereferences the tag object to the commit SHA it reports. -/
theorem tag_resolution_commit_or_annotated (rest : RestOracle)
    (owner repo tag sha otype sha2 t2 : String)
    (h1 : rest (tagRefPath owner repo tag) = .found sha otype) :
    (otype = "commit" →
      getCheckSumForTag rest owner repo tag = (.ok sha, [tagRefPath owner repo tag]))
    ∧ (otype ≠ "commit" → rest (tagObjPath owner repo sha) = .found sha2 t2 →
      getCheckSumForTag rest owner repo tag
        = (.ok sha2, [tagRefPath owner repo tag, tagObjPath owner repo sha])) := by
  constructor
  · intro hc
    subst hc
    simp [getCheckSumForTag, doGetReference, h1]
  · intro hc h2
    simp [getCheckSumForTag, doGetReference, h1, h2, hc]

/-- A REST service for the C6 witness: `v1` is an annotated tag whose tag
object dereferences to a commit. -/
def restC6 : RestOracle := fun p =>
  if p == tagRefPath "o" "r" "v1" then .found "aaaa" "tag"
  else if p == tagObjPath "o" "r" "aaaa" then .found "bbbb" "commit"
  else .notFound

theorem tag_resolution_commit_or_annotated_witness :
    getCheckSumForTag restC6 "o" "r" "v1"
      = (.ok "bbbb", [tagRefPath "o" "r" "v1", tagObjPath "o" "r" "aaaa"]) :=
  (tag_resolution_commit_or_annotated restC6 "o" "r" "v1" "aaaa" "tag" "bbbb" "commit"
    (by decide)).2 (by decide) (by decide)

/-- C5: before any branch lookup `GetChecksum` consults the
branch-exclusion list: a `"*"` entry excludes every branch, `["main"]`
excludes exactly `main`; an excluded branch yields the reference-skipped
signal with only the two tag-phase requests issued (no
`git/refs/heads` request), while a non-excluded branch is still looked
up. -/
theorem branch_exclusion_policy (cfg : GHActions) (rest : RestOracle)
    (action owner repo ref sha t : String) :
    (∀ b, excludeBranch ["*"] b = true)
    ∧ (∀ b, excludeBranch ["main"] b = (b == "main"))
    ∧ (parseActionFragments action = .ok (owner, repo) →
       isChecksum ref = false →
       rest (tagRefPath owner repo ref) = .notFound →
       rest (tagObjPath owner repo "") = .notFound →
       excludeBranch cfg.excludeBranches ref = true →
       GetChecksum cfg rest action ref
         = (.error (.skipped ("reference skipped: " ++ ref)),
            [tagRefPath owner repo ref, tagObjPath owner repo ""]))
    ∧ (parseActionFragments action = .ok (owner, repo) →
       isChecksum ref = false →
       rest (tagRefPath owner repo ref) = .notFound →
       rest (tagObjPath owner repo "") = .notFound →
       excludeBranch cfg.excludeBranches ref = false →
       rest (branchRefPath owner repo ref) = .found sha t →
       sha ≠ "" →
       GetChecksum cfg rest action ref
         = (.ok sha,
            [tagRefPath owner repo ref, tagObjPath owner repo "",
             branchRefPath owner repo ref])) := by
  refine ⟨fun b => rfl, fun b => ?_, ?_, ?_⟩
  · simp only [excludeBranch, List.contains]
    rw [if_neg (by decide), if_neg (by decide)]
    cases hb : b == "main" with
    | true => simp [List.elem, hb]
    | false => simp [List.elem, hb]
  · intro hfrag hsum h3 h4 hexcl
    simp [GetChecksum, hfrag, hsum, getCheckSumForTag, doGetReference, h3, h4, hexcl]
  · intro hfrag hsum h3 h4 hexcl h6 hs
    simp [GetChecksum, hfrag, hsum, getCheckSumForTag, doGetReference, h3, h4, hexcl,
      getCheckSumForBranch, h6, hs]

/-- A REST service for the C5 witness: no tags exist; the branch `dev`
resolves to a commit. -/
def restC5 : RestOracle := fun p =>
  if p == branchRefPath "o" "r" "dev" then .found "cccc" "commit" else .notFound

/-- Branch-exclusion config for the C5 witness. -/
def cfgMainExcluded : GHActions := { exclude := [], excludeBranches := ["main"] }

theorem branch_exclusion_policy_witness :
    excludeBranch ["*"] "anything" = true
    ∧ excludeBranch ["main"] "dev" = false
    ∧ GetChecksum cfgMainExcluded restC5 "o/r" "main"
        = (.error (.skipped ("reference skipped: " ++ "main")),
           [tagRefPath "o" "r" "main", tagObjPath "o" "r" ""])
    ∧ GetChecksum cfgMainExcluded restC5 "o/r" "dev"
        = (.ok "cccc",
           [tagRefPath "o" "r" "dev", tagObjPath "o" "r" "",
            branchRefPath "o" "r" "dev"]) := by
  refine ⟨(branch_exclusion_policy cfgMainExcluded restC5 "o/r" "o" "r" "main" "" "").1 "anything",
          ?_, ?_, ?_⟩
  · have h := (branch_exclusion_policy cfgMainExcluded restC5 "o/r" "o" "r" "main" "" "").2.1 "dev"
    rw [h]; decide
  · exact (branch_exclusion_policy cfgMainExcluded restC5 "o/r" "o" "r" "main" "" "").2.2.1
      (by decide) (by decide) (by decide) (by decide) (by decide)
  · exact (branch_exclusion_policy cfgMainExcluded restC5 "o/r" "o" "r" "dev" "cccc" "commit").2.2.2
      (by decide) (by decide) (by decide) (by decide) (by decide) (by decide) (by decide)

/-! ## Checksum short-circuit (claim C1) -/

/-- Lookup through the parser's optional cache. -/
def cacheLookup : Option Cache → String → Option String
  | none, _ => none
  | some c, k => mapLoad c k

theorem checksumViaCache_consistent (cfg : Config) (cache : Option Cache)
    (rest : RestOracle) (line act ref : String)
    (hGC : GetChecksum cfg.ghActions rest act ref = (.ok ref, []))
    (hcache : cacheLookup cache line = none ∨ cacheLookup cache line = some ref) :
    (checksumViaCache cfg cache rest line act ref).1 = .ok ref
    ∧ (checksumViaCache cfg cache rest line act ref).2.2 = [] := by
  cases cache with
  | none => simp [checksumViaCache, hGC]
  | some c =>
    cases hcl : mapLoad c line with
    | none => simp [checksumViaCache, hcl, hGC]
    | some v =>
      have hv : v = ref := by
        rcases hcache with h | h
        · simp [cacheLookup, hcl] at h
        · simp [cacheLookup, hcl] at h
          exact h
      simp [checksumViaCache, hcl, hv]

theorem replaceAction_skip_when_resolved_eq (cfg : Config) (cache : Option Cache)
    (rest : RestOracle) (line act ref : String)
    (hparse : ParseActionReference line = .ok (act, ref))
    (hstep : (checksumViaCache cfg cache rest line act ref).1 = .ok ref)
    (hreqs : (checksumViaCache cfg cache rest line act ref).2.2 = []) :
    isSkipRes (replaceAction cfg cache rest line).res = true
    ∧ (replaceAction cfg cache rest line).reqs = [] := by
  by_cases h1 : (isLocal line || shouldExclude cfg.ghActions line) = true
  · simp [replaceAction, h1, isSkipRes, GoErr.isSkip]
  · by_cases h2 : shouldExclude cfg.ghActions act = true
    · simp [replaceAction, h1, hparse, h2, isSkipRes, GoErr.isSkip]
    · rcases hC : checksumViaCache cfg cache rest line act ref with ⟨r1, c2, log⟩
      rw [hC] at hstep hreqs
      simp only at hstep hreqs
      subst hstep
      subst hreqs
      simp [replaceAction, h1, hparse, h2, hC, isSkipRes, GoErr.isSkip]

/-- C1: for a well-formed `owner/repo@ref` action reference whose ref is a
40-byte string (40 ASCII characters), `GetChecksum` returns the ref
unchanged and issues no REST request, and the parser's `Replace` reports
the reference-skipped signal (hence the driver leaves the matched text
unrewritten). -/
theorem checksum_short_circuit_skips (ext : ImageExt) (cfg : Config)
    (cache : Option Cache) (rest : RestOracle) (m act ref owner repo : String)
    (hdocker : strHasPref (usesTrimmed m) "docker://" = false)
    (hparse : ParseActionReference (usesTrimmed m) = .ok (act, ref))
    (hfrag : parseActionFragments act = .ok (owner, repo))
    (hlen : goStrLen ref = 40)
    (hcache : cacheLookup cache (usesTrimmed m) = none
              ∨ cacheLookup cache (usesTrimmed m) = some ref) :
    GetChecksum cfg.ghActions rest act ref = (.ok ref, [])
    ∧ isSkipRes (actionsReplace ext cfg cache rest m).res = true
    ∧ (actionsReplace ext cfg cache rest m).reqs = []
    ∧ rewriteMatch (fun s => (actionsReplace ext cfg cache rest s).res) m = m := by
  have hsum : isChecksum ref = true := by simp [isChecksum, hlen]
  have hGC : GetChecksum cfg.ghActions rest act ref = (.ok ref, []) := by
    simp [GetChecksum, hfrag, hsum]
  have hCC := checksumViaCache_consistent cfg cache rest (usesTrimmed m) act ref hGC hcache
  have hRA := replaceAction_skip_when_resolved_eq cfg cache rest (usesTrimmed m) act ref
    hparse hCC.1 hCC.2
  have hout : actionsReplace ext cfg cache rest m = replaceAction cfg cache rest (usesTrimmed m) := by
    rcases hres : (replaceAction cfg cache rest (usesTrimmed m)).res with e | v
    · simp [actionsReplace, hdocker, hres]
    · rw [hres] at hRA
      simp [isSkipRes] at hRA
  refine ⟨hGC, ?_, ?_, ?_⟩
  · rw [hout]; exact hRA.1
  · rw [hout]; exact hRA.2
  · rcases hres : (actionsReplace ext cfg cache rest m).res with e | v
    · simp [rewriteMatch, hres]
    · rw [hout] at hres
      rw [hres] at hRA
      simp [isSkipRes] at hRA

/-- Oracles that answer nothing, for witnesses that must not need them. -/
def extNone : ImageExt :=
  { parseRef := fun _ => none
    remoteGet := fun _ => .error "no remote"
    dockerFrom := fun _ => .error "no dockerfile parser" }

/-- A REST service with no refs at all. -/
def restNone : RestOracle := fun _ => .notFound

theorem checksum_short_circuit_skips_witness :
    GetChecksum defaultConfig.ghActions restNone "actions/checkout"
        "1d96c772d19495a3b5c517cd2bc0cb401ea0529f"
      = (.ok "1d96c772d19495a3b5c517cd2bc0cb401ea0529f", [])
    ∧ isSkipRes (actionsReplace extNone defaultConfig none restNone
        "uses: actions/checkout@1d96c772d19495a3b5c517cd2bc0cb401ea0529f").res = true
    ∧ (actionsReplace extNone defaultConfig none restNone
        "uses: actions/checkout@1d96c772d19495a3b5c517cd2bc0cb401ea0529f").reqs = []
    ∧ rewriteMatch (fun s => (actionsReplace extNone defaultConfig none restNone s).res)
        "uses: actions/checkout@1d96c772d19495a3b5c517cd2bc0cb401ea0529f"
      = "uses: actions/checkout@1d96c772d19495a3b5c517cd2bc0cb401ea0529f" :=
  checksum_short_circuit_skips extNone defaultConfig none restNone
    "uses: actions/checkout@1d96c772d19495a3b5c517cd2bc0cb401ea0529f"
    "actions/checkout" "1d96c772d19495a3b5c517cd2bc0cb401ea0529f" "actions" "checkout"
    (by decide) (by decide) (by decide) (by decide) (Or.inl rfl)

/-! ## Resolution success invariant (claim C4) -/

theorem getImageDigest_ok_ne (ext : ImageExt) (imageRef platform : String)
    (cache : Option Cache) (ret : EntityRef)
    (h : (GetImageDigestFromRef ext imageRef platform cache).res = .ok ret) :
    ret.ref ≠ ret.tag := by
  simp only [GetImageDigestFromRef] at h
  split at h
  · simp at h
  · split at h
    · simp at h
    · split at h
      · simp at h
      · split at h
        · simp at h
        · rename_i hne
          simp only [ImgOut.res] at h
          injection h with h2
          subst h2
          intro hc
          exact hne (beq_iff_eq.mpr hc)

theorem replaceDocker_ok_ne (ext : ImageExt) (cfg : Config) (cache : Option Cache)
    (m : String) (ret : EntityRef)
    (h : (replaceDocker ext cfg cache m).res = .ok ret) : ret.ref ≠ ret.tag := by
  simp only [replaceDocker] at h
  split at h
  · simp at h
  · split at h
    · simp at h
    · rename_i actionRef heq
      split at h
      · simp at h
      · simp only [ActOut.res] at h
        injection h with h2
        subst h2
        have hne := getImageDigest_ok_ne ext (strTrimPref m "docker://") cfg.platform cache
          actionRef heq
        split <;> simpa using hne

theorem replaceAction_ok_ne (cfg : Config) (cache : Option Cache) (rest : RestOracle)
    (line : String) (ret : EntityRef)
    (h : (replaceAction cfg cache rest line).res = .ok ret) : ret.ref ≠ ret.tag := by
  simp only [replaceAction] at h
  split at h
  · simp at h
  · split at h
    · simp at h
    · split at h
      · simp at h
      · split at h
        · simp at h
        · split at h
          · simp at h
          · rename_i hne
            simp only [ActOut.res] at h
            injection h with h2
            subst h2
            intro hc
            exact hne (beq_iff_eq.mpr hc.symm)

theorem actionsReplace_ok_ne (ext : ImageExt) (cfg : Config) (cache : Option Cache)
    (rest : RestOracle) (m : String) (ret : EntityRef)
    (h : (actionsReplace ext cfg cache rest m).res = .ok ret) : ret.ref ≠ ret.tag := by
  simp only [actionsReplace] at h
  split at h
  · rename_i e heq
    rw [heq] at h
    simp at h
  · rename_i r hres
    simp only [ActOut.res] at h
    injection h with h2
    have hinner : ret.ref = r.ref ∧ ret.tag = r.tag := by
      rw [← h2]
      split <;> simp
    rw [hinner.1, hinner.2]
    by_cases hd : strHasPref (usesTrimmed m) "docker://" = true
    · rw [if_pos hd] at hres
      exact replaceDocker_ok_ne ext cfg cache (usesTrimmed m) r hres
    · rw [if_neg hd] at hres
      exact replaceAction_ok_ne cfg cache rest (usesTrimmed m) r hres

theorem replaceAction_skip_of_eq (cfg : Config) (cache : Option Cache)
    (rest : RestOracle) (line act ref : String)
    (hparse : ParseActionReference line = .ok (act, ref))
    (hstep : (checksumViaCache cfg cache rest line act ref).1 = .ok ref) :
    isSkipRes (replaceAction cfg cache rest line).res = true := by
  by_cases h1 : (isLocal line || shouldExclude cfg.ghActions line) = true
  · simp [replaceAction, h1, isSkipRes, GoErr.isSkip]
  · by_cases h2 : shouldExclude cfg.ghActions act = true
    · simp [replaceAction, h1, hparse, h2, isSkipRes, GoErr.isSkip]
    · rcases hC : checksumViaCache cfg cache rest line act ref with ⟨r1, c2, log⟩
      rw [hC] at hstep
      simp only at hstep
      subst hstep
      simp [replaceAction, h1, hparse, h2, hC, isSkipRes, GoErr.isSkip]

theorem getImageDigest_skip_of_eq (ext : ImageExt) (imageRef platform : String)
    (cache : Option Cache) (nref : NameRef)
    (hp : ext.parseRef imageRef = some nref)
    (hplat : (platform != "" && ((strSplitChar platform '/').length != 2)) = false)
    (hd : (digestViaCache ext imageRef cache).1 = .ok nref.identifier) :
    isSkipRes (GetImageDigestFromRef ext imageRef platform cache).res = true := by
  rcases hC : digestViaCache ext imageRef cache with ⟨r1, c2, log⟩
  rw [hC] at hd
  simp only at hd
  subst hd
  simp [GetImageDigestFromRef, hp, hplat, hC, isSkipRes, GoErr.isSkip]

/-- C4: a successful resolution never returns `Ref` equal to `Tag` — for
the actions parser's `Replace` and for the image digest resolver — and
whenever the resolved identifier equals the identifier already present in
the reference (action checksum equal to the ref, or image digest equal to
the identifier), the operation reports the reference-skipped signal
instead of a result. -/
theorem resolution_ref_ne_tag_and_skip_on_equal :
    (∀ (ext : ImageExt) (cfg : Config) (cache : Option Cache) (rest : RestOracle)
       (m : String) (ret : EntityRef),
       (actionsReplace ext cfg cache rest m).res = .ok ret → ret.ref ≠ ret.tag)
    ∧ (∀ (ext : ImageExt) (imageRef platform : String) (cache : Option Cache)
         (ret : EntityRef),
       (GetImageDigestFromRef ext imageRef platform cache).res = .ok ret →
       ret.ref ≠ ret.tag)
    ∧ (∀ (cfg : Config) (cache : Option Cache) (rest : RestOracle) (line act ref : String),
       ParseActionReference line = .ok (act, ref) →
       (checksumViaCache cfg cache rest line act ref).1 = .ok ref →
       isSkipRes (replaceAction cfg cache rest line).res = true)
    ∧ (∀ (ext : ImageExt) (imageRef platform : String) (cache : Option Cache)
         (nref : NameRef),
       ext.parseRef imageRef = some nref →
       (platform != "" && ((strSplitChar platform '/').length != 2)) = false →
       (digestViaCache ext imageRef cache).1 = .ok nref.identifier →
       isSkipRes (GetImageDigestFromRef ext imageRef platform cache).res = true) :=
  ⟨fun ext cfg cache rest m ret h => actionsReplace_ok_ne ext cfg cache rest m ret h,
   fun ext imageRef platform cache ret h =>
     getImageDigest_ok_ne ext imageRef platform cache ret h,
   fun cfg cache rest line act ref hparse hstep =>
     replaceAction_skip_of_eq cfg cache rest line act ref hparse hstep,
   fun ext imageRef platform cache nref hp hplat hd =>
     getImageDigest_skip_of_eq ext imageRef platform cache nref hp hplat hd⟩

/-- REST service for the C4 witness: one tag resolving to a commit. -/
def restTag : RestOracle := fun p =>
  if p == tagRefPath "foo" "bar" "v1" then
    .found "2222222222222222222222222222222222222222" "commit"
  else .notFound

/-- External image oracles for the C4 witness: a reference already
expressed by the digest the registry reports. -/
def extEq : ImageExt :=
  { parseRef := fun s =>
      if s == "img@sha256:abc" then
        some { name := "index.docker.io/library/img", identifier := "sha256:abc" }
      else none
    remoteGet := fun _ => .ok "sha256:abc"
    dockerFrom := fun _ => .error "no dockerfile parser" }

theorem resolution_ref_ne_tag_and_skip_on_equal_witness :
    ("2222222222222222222222222222222222222222" : String) ≠ "v1"
    ∧ isSkipRes (replaceAction defaultConfig (some [("foo/bar@v1", "v1")]) restNone
        "foo/bar@v1").res = true
    ∧ isSkipRes (GetImageDigestFromRef extEq "img@sha256:abc" "" none).res = true := by
  refine ⟨?_, ?_, ?_⟩
  · exact resolution_ref_ne_tag_and_skip_on_equal.1 extNone defaultConfig none restTag
      "uses: foo/bar@v1"
      { name := "foo/bar", ref := "2222222222222222222222222222222222222222",
        rtype := "action", tag := "v1", pfx := "uses: " } (by decide)
  · exact resolution_ref_ne_tag_and_skip_on_equal.2.2.1 defaultConfig
      (some [("foo/bar@v1", "v1")]) restNone "foo/bar@v1" "foo/bar" "v1"
      (by decide) (by decide)
  · exact resolution_ref_ne_tag_and_skip_on_equal.2.2.2 extEq "img@sha256:abc" "" none
      { name := "index.docker.io/library/img", identifier := "sha256:abc" }
      (by decide) (by decide) (by decide)

/-! ## Unparseable image references are skipped (claim C10) -/

/-- C10: for a match carrying the `FROM ` or `image: ` prefix whose image
reference fails reference parsing, the image parser's `Replace` returns the
reference-skipped signal (not a hard parse error), performs no registry
lookup, and leaves the cache untouched. -/
theorem image_unparseable_reference_skips (ext : ImageExt) (cfg : Config)
    (cache : Option Cache) (m : String) (u : UnresolvedImage) :
    (strHasPref m "FROM " = true →
     ext.dockerFrom m = .ok u →
     ext.parseRef u.imageRef = none →
     isSkipRes (imageReplace ext cfg cache m).res = true
     ∧ (imageReplace ext cfg cache m).reqs = []
     ∧ (imageReplace ext cfg cache m).cache = cache)
    ∧ (strHasPref m "FROM " = false →
       strHasPref m "image: " = true →
       ext.parseRef (strTrimPref m "image: ") = none →
       isSkipRes (imageReplace ext cfg cache m).res = true
       ∧ (imageReplace ext cfg cache m).reqs = []
       ∧ (imageReplace ext cfg cache m).cache = cache) := by
  constructor
  · intro hfrom hdf hpr
    have hskip : shouldSkipImageRef ext cfg u.imageRef = true := by
      simp [shouldSkipImageRef, hpr]
    refine ⟨?_, ?_, ?_⟩ <;>
      simp [imageReplace, hfrom, hdf, hskip, isSkipRes, GoErr.isSkip]
  · intro hfrom himg hpr
    have hskip : shouldSkipImageRef ext cfg (strTrimPref m "image: ") = true := by
      simp [shouldSkipImageRef, hpr]
    refine ⟨?_, ?_, ?_⟩ <;>
      simp [imageReplace, hfrom, himg, hskip, isSkipRes, GoErr.isSkip]

/-- External oracles for the C10 witness: the Dockerfile line splits, but
the reference parser rejects the image reference. -/
def extU : ImageExt :=
  { parseRef := fun _ => none
    remoteGet := fun _ => .ok "sha256:zzz"
    dockerFrom := fun s =>
      if s == "FROM bad::ref" then .ok { imageRef := "bad::ref", flags := [] }
      else .error "not a FROM line" }

theorem image_unparseable_reference_skips_witness :
    (isSkipRes (imageReplace extU defaultConfig (some []) "FROM bad::ref").res = true
     ∧ (imageReplace extU defaultConfig (some []) "FROM bad::ref").reqs = []
     ∧ (imageReplace extU defaultConfig (some []) "FROM bad::ref").cache = some [])
    ∧ (isSkipRes (imageReplace extU defaultConfig (some []) "image: bad::ref").res = true
       ∧ (imageReplace extU defaultConfig (some []) "image: bad::ref").reqs = []
       ∧ (imageReplace extU defaultConfig (some []) "image: bad::ref").cache = some []) :=
  ⟨(image_unparseable_reference_skips extU defaultConfig (some []) "FROM bad::ref"
      { imageRef := "bad::ref", flags := [] }).1 (by decide) (by decide) rfl,
   (image_unparseable_reference_skips extU defaultConfig (some []) "image: bad::ref"
      { imageRef := "bad::ref", flags := [] }).2 (by decide) (by decide) rfl⟩

/-! ## Commented lines pass through (claim C2) -/

/-- C2: a line whose first non-whitespace character is `#` is written to
the output byte-identical, the per-line resolver-call list is empty (no
resolution, hence no network lookup, happens for matches inside it), and
the rest of the file is processed as if the line were absent, with the
modified flag unaffected. -/
theorem comment_lines_pass_through (resolve : String → Except GoErr EntityRef)
    (ld : LineD) (file : List LineD)
    (hc : isCommentLine ld.line = true) :
    processLine resolve ld = (ld.line, [])
    ∧ parseAndReplaceReferencesInFile resolve (ld :: file)
        = (.ok ((processFileCore resolve file).1,
                ld.line ++ "\n" ++ (processFileCore resolve file).2.1),
           (processFileCore resolve file).2.2) := by
  constructor
  · simp [processLine, hc]
  · simp [parseAndReplaceReferencesInFile, processFileCore, processLine, hc]

/-- A resolver that fails hard on every reference. -/
def hardResolver : String → Except GoErr EntityRef := fun _ => .error (.hard "boom")

theorem comment_lines_pass_through_witness :
    processLine hardResolver
        { line := "  # - uses: actions/checkout@v2",
          segs := [.txt "  # - ", .matched "uses: actions/checkout@v2"] }
      = ("  # - uses: actions/checkout@v2", [])
    ∧ parseAndReplaceReferencesInFile hardResolver
        [{ line := "  # - uses: actions/checkout@v2",
           segs := [.txt "  # - ", .matched "uses: actions/checkout@v2"] }]
      = (.ok (false, "  # - uses: actions/checkout@v2\n"), []) := by
  have h := comment_lines_pass_through hardResolver
    { line := "  # - uses: actions/checkout@v2",
      segs := [.txt "  # - ", .matched "uses: actions/checkout@v2"] } [] (by decide)
  refine ⟨h.1, ?_⟩
  rw [h.2]
  decide

/-! ## Replace errors never abort whole-file rewriting (claim C3) -/

/-- A one-line file whose single match the resolver will reject. -/
def fileOneMatch : List LineD :=
  [{ line := "uses: foo/bar@v1", segs := [.matched "uses: foo/bar@v1"] }]

/-- Refutation of C3 as stated: the resolver returns a hard (non-skip)
error for the matched reference, yet the whole-file operation does not
abort — it returns success with the line unrewritten and the modified
flag false; no error is surfaced to the caller. -/
theorem replace_error_no_abort_counterexample :
    hardResolver "uses: foo/bar@v1" = .error (.hard "boom")
    ∧ GoErr.isSkip (.hard "boom") = false
    ∧ parseAndReplaceReferencesInFile hardResolver fileOneMatch
        = (.ok (false, "uses: foo/bar@v1\n"), ["uses: foo/bar@v1"]) := by
  refine ⟨rfl, rfl, by decide⟩

/-- C3 (amended): during whole-file rewriting any `Replace` error — hard or
skip — only passes the original match through and the file operation always
returns the aggregate `(modified, content)` pair; a hard error aborts only
the standalone single-reference operation, which propagates the error
unchanged. -/
theorem replace_error_degrades_in_file_propagates_standalone :
    (∀ (resolve : String → Except GoErr EntityRef) (file : List LineD),
      isOkRes (parseAndReplaceReferencesInFile resolve file).1 = true)
    ∧ (∀ (resolve : String → Except GoErr EntityRef) (m : String) (e : GoErr),
        resolve m = .error e → rewriteMatch resolve m = m)
    ∧ (∀ (ext : ImageExt) (cfg : Config) (cache : Option Cache) (rest : RestOracle)
         (line : String) (e : GoErr),
        (actionsReplace ext cfg cache rest line).res = .error e →
        ParseSingleGitHubAction ext cfg cache rest line = .error e) := by
  refine ⟨fun _ _ => rfl, ?_, ?_⟩
  · intro resolve m e h
    simp [rewriteMatch, h]
  · intro ext cfg cache rest line e h
    simp [ParseSingleGitHubAction, h]

theorem replace_error_degrades_in_file_propagates_standalone_witness :
    rewriteMatch hardResolver "uses: foo/bar@v1" = "uses: foo/bar@v1"
    ∧ ParseSingleGitHubAction extNone defaultConfig none restNone "./a@v1"
        = .error (.skipped ("reference skipped: " ++ "./a@v1"))
    ∧ isOkRes (parseAndReplaceReferencesInFile hardResolver fileOneMatch).1 = true :=
  ⟨replace_error_degrades_in_file_propagates_standalone.2.1 hardResolver
     "uses: foo/bar@v1" (.hard "boom") rfl,
   replace_error_degrades_in_file_propagates_standalone.2.2 extNone defaultConfig none
     restNone "./a@v1" (.skipped ("reference skipped: " ++ "./a@v1")) (by decide),
   replace_error_degrades_in_file_propagates_standalone.1 hardResolver fileOneMatch⟩

/-! ## Line reconstruction formats (claim C7) -/

theorem strAppend_empty (s : String) : s ++ "" = s := by
  cases s with
  | mk data =>
    show String.mk (data ++ []) = String.mk data
    rw [List.append_nil]

theorem listHasPref_append (s t l : List Char)
    (h : listHasPref (s ++ t) l = true) : listHasPref s l = true := by
  induction s generalizing l with
  | nil => rfl
  | cons c cs ih =>
    cases l with
    | nil => simp [listHasPref] at h
    | cons x xs =>
      simp only [List.cons_append, listHasPref, Bool.and_eq_true] at h ⊢
      exact ⟨h.1, ih xs h.2⟩

theorem listContains_of_pref (sub l : List Char)
    (h : listHasPref sub l = true) : listContains sub l = true := by
  cases l with
  | nil => exact h
  | cons x xs => simp [listContains, h]

theorem strContains_FROM_of_pref (m : String)
    (h : strHasPref m "FROM " = true) : strContains m "FROM" = true := by
  have hdata : ("FROM ".data : List Char) = "FROM".data ++ [' '] := by decide
  have h2 : listHasPref ("FROM".data ++ [' ']) m.data = true := by
    rw [← hdata]; exact h
  exact listContains_of_pref _ _ (listHasPref_append _ _ _ h2)

theorem getImageDigest_ok_pfx (ext : ImageExt) (imageRef platform : String)
    (cache : Option Cache) (ret : EntityRef)
    (h : (GetImageDigestFromRef ext imageRef platform cache).res = .ok ret) :
    ret.pfx = "" := by
  simp only [GetImageDigestFromRef] at h
  split at h
  · simp at h
  · split at h
    · simp at h
    · split at h
      · simp at h
      · split at h
        · simp at h
        · simp only [ImgOut.res] at h
          injection h with h2
          subst h2
          rfl

theorem replaceAction_ok_pfx (cfg : Config) (cache : Option Cache) (rest : RestOracle)
    (line : String) (ret : EntityRef)
    (h : (replaceAction cfg cache rest line).res = .ok ret) : ret.pfx = "" := by
  simp only [replaceAction] at h
  split at h
  · simp at h
  · split at h
    · simp at h
    · split at h
      · simp at h
      · split at h
        · simp at h
        · split at h
          · simp at h
          · simp only [ActOut.res] at h
            injection h with h2
            subst h2
            rfl

/-- REST service for the C7 counterexample: repo `actions/FROM`, tag `v1`. -/
def restTagF : RestOracle := fun p =>
  if p == tagRefPath "actions" "FROM" "v1" then
    .found "3333333333333333333333333333333333333333" "commit"
  else .notFound

/-- The driver's resolver over that REST service. -/
def resolveF : String → Except GoErr EntityRef :=
  fun s => (actionsReplace extNone defaultConfig none restTagF s).res

/-- Refutation of C7 as stated: `uses: actions/FROM@v1` is an Action uses
line (no Dockerfile involved) that resolves successfully, yet the driver
reconstructs it in the Dockerfile `FROM` format — because the format is
chosen by `strings.Contains(matchedLine, "FROM")`, not by the match's
kind — instead of the claimed `uses: <name>@<sha> # <tag>`. -/
theorem reconstruction_format_counterexample :
    resolveF "uses: actions/FROM@v1"
      = .ok { name := "actions/FROM", ref := "3333333333333333333333333333333333333333",
              rtype := "action", tag := "v1", pfx := "uses: " }
    ∧ rewriteMatch resolveF "uses: actions/FROM@v1"
        = "uses: actions/FROM:v1@3333333333333333333333333333333333333333"
    ∧ "uses: actions/FROM:v1@3333333333333333333333333333333333333333"
        ≠ "uses: actions/FROM@3333333333333333333333333333333333333333 # v1" := by
  refine ⟨by decide, by decide, by decide⟩

/-- C7 (amended): for a successfully resolved match the driver
reconstructs `<Prefix><name>:<tag>@<digest>` whenever the matched text
contains the substring `FROM` — which is the case for every Dockerfile
`FROM` match, whose recorded Prefix is `FROM <flags>` — and
`<Prefix><name>@<ref> # <tag>` otherwise, with Prefix `image: ` for a YAML
image key and `uses: ` for an Action uses line; a non-Dockerfile match
whose text happens to contain `FROM` also receives the Dockerfile-style
format. -/
theorem reconstruction_formats :
    (∀ (resolve : String → Except GoErr EntityRef) (m : String) (ret : EntityRef),
      resolve m = .ok ret → strContains m "FROM" = true →
      rewriteMatch resolve m = ret.pfx ++ ret.name ++ ":" ++ ret.tag ++ "@" ++ ret.ref)
    ∧ (∀ (resolve : String → Except GoErr EntityRef) (m : String) (ret : EntityRef),
        resolve m = .ok ret → strContains m "FROM" = false →
        rewriteMatch resolve m = ret.pfx ++ ret.name ++ "@" ++ ret.ref ++ " # " ++ ret.tag)
    ∧ (∀ m, strHasPref m "FROM " = true → strContains m "FROM" = true)
    ∧ (∀ (ext : ImageExt) (cfg : Config) (cache : Option Cache) (m : String)
         (u : UnresolvedImage) (r : EntityRef),
        strHasPref m "FROM " = true → ext.dockerFrom m = .ok u →
        (imageReplace ext cfg cache m).res = .ok r →
        r.pfx = "FROM " ++ dockerExtraArgs u.flags)
    ∧ (∀ (ext : ImageExt) (cfg : Config) (cache : Option Cache) (m : String)
         (r : EntityRef),
        strHasPref m "FROM " = false → strHasPref m "image: " = true →
        (imageReplace ext cfg cache m).res = .ok r →
        r.pfx = "image: ")
    ∧ (∀ (ext : ImageExt) (cfg : Config) (cache : Option Cache) (rest : RestOracle)
         (m : String) (ret : EntityRef),
        strHasPref m "uses: " = true →
        strHasPref (usesTrimmed m) "docker://" = false →
        (actionsReplace ext cfg cache rest m).res = .ok ret →
        ret.pfx = "uses: ") := by
  refine ⟨?_, ?_, fun m h => strContains_FROM_of_pref m h, ?_, ?_, ?_⟩
  · intro resolve m ret hok hc
    simp [rewriteMatch, hok, hc]
  · intro resolve m ret hok hc
    simp [rewriteMatch, hok, hc]
  · intro ext cfg cache m u r hfrom hdf h
    simp only [imageReplace, hfrom, if_true, hdf] at h
    split at h
    · simp at h
    · split at h
      · simp at h
      · rename_i r0 heq
        simp only [ImgOut.res] at h
        injection h with h2
        subst h2
        have hp0 := getImageDigest_ok_pfx ext u.imageRef cfg.platform cache r0 heq
        show "FROM " ++ dockerExtraArgs u.flags ++ r0.pfx = _
        rw [hp0, strAppend_empty]
  · intro ext cfg cache m r hfrom himg h
    simp only [imageReplace, hfrom, himg, Bool.false_eq_true, if_false, if_true] at h
    split at h
    · simp at h
    · split at h
      · simp at h
      · rename_i r0 heq
        simp only [ImgOut.res] at h
        injection h with h2
        subst h2
        have hp0 := getImageDigest_ok_pfx ext (strTrimPref m "image: ") cfg.platform
          cache r0 heq
        show "image: " ++ r0.pfx = _
        rw [hp0, strAppend_empty]
  · intro ext cfg cache rest m ret huses hdocker h
    simp only [actionsReplace, hdocker] at h
    split at h
    · rename_i e heq
      rw [heq] at h
      simp at h
    · rename_i r0 heq
      simp only [ActOut.res, huses, if_true] at h
      injection h with h2
      subst h2
      have hp0 := replaceAction_ok_pfx cfg cache rest (usesTrimmed m) r0 heq
      show "uses: " ++ r0.pfx = _
      rw [hp0, strAppend_empty]

/-- External image oracles for the C7 witness: a Dockerfile `FROM` with a
platform flag and a YAML `image:` key that both resolve. -/
def extC7 : ImageExt :=
  { parseRef := fun s =>
      if s == "golang:1.22.2" then
        some { name := "index.docker.io/library/golang", identifier := "1.22.2" }
      else none
    remoteGet := fun _ => .ok "sha256:d530"
    dockerFrom := fun s =>
      if s == "FROM --platform=linux/s390x golang:1.22.2" then
        .ok { imageRef := "golang:1.22.2", flags := ["--platform=linux/s390x"] }
      else .error "not a FROM line" }

theorem reconstruction_formats_witness :
    rewriteMatch (fun s => (imageReplace extC7 defaultConfig none s).res)
        "FROM --platform=linux/s390x golang:1.22.2"
      = "FROM --platform=linux/s390x index.docker.io/library/golang:1.22.2@sha256:d530"
    ∧ rewriteMatch (fun s => (imageReplace extC7 defaultConfig none s).res)
        "image: golang:1.22.2"
      = "image: index.docker.io/library/golang@sha256:d530 # 1.22.2"
    ∧ rewriteMatch resolveF "uses: foo/bar@v1" = "uses: foo/bar@v1" := by
  refine ⟨?_, ?_, ?_⟩
  · have h := reconstruction_formats.1
      (fun s => (imageReplace extC7 defaultConfig none s).res)
      "FROM --platform=linux/s390x golang:1.22.2"
      { name := "index.docker.io/library/golang", ref := "sha256:d530",
        rtype := "container", tag := "1.22.2",
        pfx := "FROM --platform=linux/s390x " }
      (by decide) (by decide)
    rw [h]
    decide
  · have h := reconstruction_formats.2.1
      (fun s => (imageReplace extC7 defaultConfig none s).res)
      "image: golang:1.22.2"
      { name := "index.docker.io/library/golang", ref := "sha256:d530",
        rtype := "container", tag := "1.22.2", pfx := "image: " }
      (by decide) (by decide)
    rw [h]
    decide
  · have h := reconstruction_formats.2.2.1 "uses: foo/bar@v1"
    decide

/-! ## The Entity Lister (claim C8) -/

theorem setAdd_nodup (s : List EntityRef) (e : EntityRef) (h : s.Nodup) :
    (setAdd s e).Nodup := by
  unfold setAdd
  split
  · exact h
  · rename_i hc
    have he : e ∉ s := by
      intro hm
      exact hc (List.elem_iff.mpr hm)
    apply List.Nodup.append h (List.nodup_singleton e)
    intro a ha hb
    rw [List.mem_singleton] at hb
    subst hb
    exact he ha

theorem foldAdd_nodup (convert : String → Except GoErr EntityRef) (ms : List String) :
    ∀ acc : List EntityRef, acc.Nodup →
    (ms.foldl (fun acc m => match convert m with
      | .error _ => acc
      | .ok e => setAdd acc e) acc).Nodup := by
  induction ms with
  | nil => intro acc h; exact h
  | cons m rest ih =>
    intro acc h
    simp only [List.foldl_cons]
    apply ih
    cases hcm : convert m with
    | error e => simpa [hcm] using h
    | ok e => simpa [hcm] using setAdd_nodup acc e h

theorem listLineRefs_nodup (convert : String → Except GoErr EntityRef)
    (acc : List EntityRef) (ld : LineD) (h : acc.Nodup) :
    (listLineRefs convert acc ld).Nodup := by
  unfold listLineRefs
  split
  · exact h
  · exact foldAdd_nodup convert (matchesOf ld.segs) acc h

theorem listReferencesInFile_nodup (convert : String → Except GoErr EntityRef)
    (file : List LineD) :
    ∀ acc : List EntityRef, acc.Nodup → (file.foldl (listLineRefs convert) acc).Nodup := by
  induction file with
  | nil => intro acc h; exact h
  | cons ld rest ih =>
    intro acc h
    simp only [List.foldl_cons]
    exact ih _ (listLineRefs_nodup convert acc ld h)

/-- The two-line input of the C8 scenario: a real `uses:` line and the
same reference commented out. -/
def demoListFile : List LineD :=
  [ { line := "      uses: actions/checkout@v2",
      segs := [.txt "      ", .matched "uses: actions/checkout@v2"] },
    { line := "      # - uses: actions/checkout@v2",
      segs := [.txt "      # - ", .matched "uses: actions/checkout@v2"] } ]

/-- C8: the lister is pure parsing over the matched text (its definition
takes no resolver and no transport oracle, so no network is reachable),
returns a de-duplicated collection sorted ascending by `Name`, and on a
file containing both `uses: actions/checkout@v2` and a commented-out
`# - uses: actions/checkout@v2` it returns exactly one entity. -/
theorem lister_dedup_sorted_and_single_entity :
    (∀ (convert : String → Except GoErr EntityRef) (file : List LineD),
       (listInFile convert file).Nodup)
    ∧ (∀ (convert : String → Except GoErr EntityRef) (file : List LineD),
       List.Sorted entityLe (listInFile convert file))
    ∧ listInFile convertToEntityRefA demoListFile
        = [{ name := "actions/checkout", ref := "v2", rtype := "action",
             tag := "", pfx := "" }] := by
  refine ⟨?_, ?_, by decide⟩
  · intro convert file
    have h := listReferencesInFile_nodup convert file [] List.nodup_nil
    exact (List.perm_insertionSort entityLe (listReferencesInFile convert file)).nodup_iff.mpr h
  · intro convert file
    exact List.sorted_insertionSort entityLe (listReferencesInFile convert file)

end Frizbee
